import Mathlib

/-!
# WonderWords: the game-state engine of `main.go`

A shallow embedding of the turn-based word-guessing engine (`Game`, `NewGame`,
`AddPlayer`, `RemovePlayer`, `MakeGuess`, `NextTurn`, `EndGame`) together with the
two package-level variables `totalScore` and `moves`.

Modelling conventions

* Go strings are modelled by Lean `String`; `[]rune(s)` is `s.data` and
  `string(runes)` is `String.mk runes`.  Every string the engine handles is valid
  UTF-8 (catalog entries and guesses come out of the JSON decoder, masks are built
  from runes), so a string is exactly its sequence of code points.
* Go `int` is modelled by `Int`.  The counters move by at most `100 * len(word)` per
  call, so the 64-bit range is out of reach of any run.
* Go `map[int]V` is modelled by an association list without duplicate keys
  (`GoMap`); iteration order is irrelevant to every definition below.
* `strings.ToLower` and `strings.ToUpper` belong to the Go standard library.  The
  engine is parametrised by a `CaseMap`; `asciiCase` is the instance that agrees with
  the Go functions on ASCII input and is used for concrete runs.
* Socket writes (`Broadcast...`) do not change any field of `Game`; they are left
  out of the state transformers.  The write loops are modelled on their own, with
  the outcome of `WriteMessage` given by a function `writeOk`.
* `World.endGames` is a ghost counter, incremented on entry to `EndGame`; it makes
  "EndGame runs" observable.
-/

namespace WonderWords

/-! ## Go maps -/

/-- Go `map[int]V`: an association list whose operations keep keys unique. -/
abbrev GoMap (V : Type) := List (Int × V)

/-- Builtin `len(m)`. -/
def GoMap.len {V : Type} (m : GoMap V) : Int := (m.length : Int)

/-- Builtin `delete(m, k)`. -/
def GoMap.delete {V : Type} (m : GoMap V) (k : Int) : GoMap V :=
  m.filter (fun e => e.1 != k)

/-- Assignment `m[k] = v`. -/
def GoMap.set {V : Type} (m : GoMap V) (k : Int) (v : V) : GoMap V :=
  (k, v) :: m.filter (fun e => e.1 != k)

/-- The key set of a map, as a list. -/
def GoMap.keys {V : Type} (m : GoMap V) : List Int := m.map Prod.fst

/-- Lookup `m[k]` with presence information (`v, ok := m[k]`). -/
def GoMap.get? {V : Type} (m : GoMap V) (k : Int) : Option V :=
  (m.find? (fun e => e.1 == k)).map Prod.snd

/-! ## Strings -/

/-- Case conversion of the Go standard library (`strings.ToLower`, `strings.ToUpper`). -/
structure CaseMap where
  lower : String → String
  upper : String → String

/-- ASCII case conversion; equal to the Go functions on ASCII strings. -/
def asciiCase : CaseMap where
  lower := fun s => String.mk (s.data.map Char.toLower)
  upper := fun s => String.mk (s.data.map Char.toUpper)

/-- Does the rune sequence `s` begin with `sub`? -/
def runesStartWith : List Char → List Char → Bool
  | _, [] => true
  | [], _ :: _ => false
  | c :: cs, d :: ds => c == d && runesStartWith cs ds

/-- Does `sub` occur as a contiguous block of `s`? -/
def runesContain : List Char → List Char → Bool
  | [], sub => sub.isEmpty
  | c :: cs, sub => runesStartWith (c :: cs) sub || runesContain cs sub

/-- Go `strings.Contains(s, substr)`. -/
def stringsContains (s substr : String) : Bool := runesContain s.data substr.data

/-! ## Data model -/

/-- A websocket connection (`*websocket.Conn`), identified by a number. -/
abbrev Conn := Nat

/-- Catalog entry (`type Word struct`). -/
structure Word where
  WordID : Int
  WordEntry : String
  Description : String
deriving DecidableEq

/-- The engine record (`type Game struct`); the unused `server` field is left out. -/
structure Game where
  Players : GoMap Conn
  Turn : Int
  Word : String
  RevealedWord : String
  Description : String
  Scores : GoMap Int
  WordList : List WonderWords.Word
  Message : String
deriving DecidableEq

/-- The whole mutable state: the `*Game` value, the package-level variables
`totalScore` and `moves`, and the ghost counter of `EndGame` calls. -/
structure World where
  g : Game
  totalScore : Int
  moves : Int
  endGames : Nat
deriving DecidableEq

/-! ## Operations -/

/-- The mask loop of `NewGame`: a space for a space, an underscore for anything else. -/
def initialMask : List Char → String
  | [] => ""
  | char :: rest =>
    (if char = ' ' then " " else "_") ++ initialMask rest

/-- Function `NewGame`, given the loaded catalog and the index drawn by `rand.Intn`.  The
result is `none` when the index is outside the catalog (`rand.Intn(0)` panics). -/
def NewGame (wordList : List Word) (wordIndex : Nat) : Option World :=
  match wordList.get? wordIndex with
  | none => none
  | some word =>
    some
      { g :=
          { Players := []
            Turn := 1
            Word := word.WordEntry
            RevealedWord := initialMask word.WordEntry.data
            Description := word.Description
            Scores := []
            WordList := []
            Message := "" }
        totalScore := 0
        moves := 3
        endGames := 0 }

/-- Method `Game.AddPlayer`: the new state and the identifier handed to the connection. -/
def AddPlayer (w : World) (conn : Conn) : World × Int :=
  let playerID := w.g.Players.len + 1
  ({ w with g := { w.g with
        Players := w.g.Players.set playerID conn
        Scores := w.g.Scores.set playerID 0 } }, playerID)

/-- Method `Game.RemovePlayer`. -/
def RemovePlayer (w : World) (playerID : Int) : World :=
  { w with g := { w.g with
      Players := w.g.Players.delete playerID
      Scores := w.g.Scores.delete playerID } }

/-- Method `Game.NextTurn`. -/
def NextTurn (w : World) : World :=
  let turn := w.g.Turn + 1
  { w with g := { w.g with Turn := if turn > w.g.Players.len then 1 else turn } }

/-- Method `Game.EndGame`: the field resets.  The `gameOver` loop ranges over the map that
was emptied three lines earlier and touches no field. -/
def EndGame (w : World) : World :=
  { w with
    g := { w.g with
      Turn := 1
      Word := ""
      Description := ""
      Scores := []
      Players := []
      WordList := [] }
    endGames := w.endGames + 1 }

/-- The test `string(c) == strings.ToLower(character) ||
string(c) == strings.ToUpper(character)`. -/
def runeMatches (cm : CaseMap) (character : String) (c : Char) : Bool :=
  decide (String.singleton c = cm.lower character) ||
    decide (String.singleton c = cm.upper character)

/-- The `for i, c := range word` loop of `MakeGuess`, started at index `i`; the
accumulators are `revealedWord`, `isCorrect` and `count`.  The write
`revealedWord[i] = c` fails (`none`) when `i` is not an index of `revealedWord`. -/
def revealLoop (cm : CaseMap) (character : String) :
    List Char → Nat → List Char → Bool → Int → Option (List Char × Bool × Int)
  | [], _, revealedWord, isCorrect, count => some (revealedWord, isCorrect, count)
  | c :: rest, i, revealedWord, isCorrect, count =>
    if runeMatches cm character c then
      if i < revealedWord.length then
        revealLoop cm character rest (i + 1) (revealedWord.set i c) true (count + 1)
      else none
    else revealLoop cm character rest (i + 1) revealedWord isCorrect count

/-- The guard "is the character already revealed": true when the lower-case or the
upper-case form of the guess occurs in the mask. -/
def alreadyRevealed (cm : CaseMap) (w : World) (character : String) : Bool :=
  stringsContains w.g.RevealedWord (cm.lower character) ||
    stringsContains w.g.RevealedWord (cm.upper character)

/-- Lines 189-202 of `MakeGuess`: the final `revealedWord`, `isCorrect` and `count`. -/
def guessLoop (cm : CaseMap) (w : World) (character : String) :
    Option (List Char × Bool × Int) :=
  if !alreadyRevealed cm w character then
    revealLoop cm character w.g.Word.data 0 w.g.RevealedWord.data false 0
  else some (w.g.RevealedWord.data, false, 0)

/-- The message of the correct branch. -/
def rightMessage (totalScore : Int) : String :=
  "Right guess! You have a total of " ++ toString totalScore ++ " points."

/-- The message of the wrong branch. -/
def wrongMessage (totalScore movesLeft : Int) : String :=
  "Wrong guess! You have a total of " ++ toString totalScore ++
    " points. You have " ++ toString movesLeft ++ " moves remaining."

/-- Lines 206-225 of `MakeGuess`: scoring, turn advance and game over, run on the
state whose mask has already been stored. -/
def settleGuess (w : World) (isCorrect : Bool) (count : Int) : World :=
  if !stringsContains w.g.RevealedWord "-" then
    let score := 100 * count
    if isCorrect then
      let w1 := { w with totalScore := w.totalScore + score }
      let w2 := { w1 with g := { w1.g with Message := rightMessage w1.totalScore } }
      let w3 := NextTurn w2
      if w3.g.RevealedWord = w3.g.Word then EndGame w3 else w3
    else
      let w1 := if w.moves = 1 then EndGame w else w
      let w2 := { w1 with totalScore := w1.totalScore - 100 }
      let w3 := { w2 with g := { w2.g with
        Message := wrongMessage w2.totalScore (w2.moves - 1) } }
      let w4 := NextTurn w3
      { w4 with moves := w4.moves - 1 }
  else w

/-- Method `Game.MakeGuess`: the new state and the returned `isCorrect`; `none` when the
call panics with an index out of range. -/
def MakeGuess (cm : CaseMap) (w : World) (playerID : Int) (character : String) :
    Option (World × Bool) :=
  if w.g.Turn = playerID then
    match guessLoop cm w character with
    | none => none
    | some (revealedWord, isCorrect, count) =>
      let w1 := { w with g := { w.g with RevealedWord := String.mk revealedWord } }
      some (settleGuess w1 isCorrect count, isCorrect)
  else some (w, false)

/-- The state in which `MakeGuess` has stored the new mask (line 204). -/
def storeMask (w : World) (revealedWord : List Char) : World :=
  { w with g := { w.g with RevealedWord := String.mk revealedWord } }

/-! ## Runs -/

/-- One call on the shared engine. -/
inductive Op where
  | addPlayer (conn : Conn)
  | removePlayer (playerID : Int)
  | makeGuess (playerID : Int) (character : String)
  | nextTurn
  | endGame

/-- Effect of one call; `none` when the call panics. -/
def step (cm : CaseMap) (w : World) : Op → Option World
  | .addPlayer conn => some (AddPlayer w conn).1
  | .removePlayer playerID => some (RemovePlayer w playerID)
  | .makeGuess playerID character => (MakeGuess cm w playerID character).map Prod.fst
  | .nextTurn => some (NextTurn w)
  | .endGame => some (EndGame w)

/-- Effect of a sequence of calls, in order. -/
def run (cm : CaseMap) (w : World) : List Op → Option World
  | [] => some w
  | op :: ops =>
    match step cm w op with
    | none => none
    | some w1 => run cm w1 ops

/-- Is the call an `AddPlayer`? -/
def Op.isJoin : Op → Bool
  | .addPlayer _ => true
  | _ => false

/-- Calls other than a `MakeGuess` by player 1, an `AddPlayer` or a direct
`EndGame`: a `RemovePlayer`, a `NextTurn`, or a `MakeGuess` by another player. -/
def Op.quiet : Op → Bool
  | .removePlayer _ => true
  | .nextTurn => true
  | .makeGuess playerID _ => playerID != 1
  | _ => false

/-- A whole session: `NewGame` on the given catalog and drawn index, followed by
the given calls. -/
def play (cm : CaseMap) (wordList : List Word) (wordIndex : Nat) (ops : List Op) :
    Option World :=
  (NewGame wordList wordIndex).bind (fun w => run cm w ops)

/-! ## Sample states -/

/-- One-entry catalog of the scenario in the specification. -/
def seaTower : List Word := [{ WordID := 1, WordEntry := "SEA TOWER", Description := "d" }]

/-- A session on "SEA TOWER" with players 1 and 2, player 1 to move. -/
def seaWorld : World :=
  { g :=
      { Players := [(2, 11), (1, 10)]
        Turn := 1
        Word := "SEA TOWER"
        RevealedWord := "___ _____"
        Description := "d"
        Scores := [(2, 0), (1, 0)]
        WordList := []
        Message := "" }
    totalScore := 0
    moves := 3
    endGames := 0 }

/-- Catalog with a hyphenated entry. -/
def hyphenated : List Word := [{ WordID := 1, WordEntry := "A-B", Description := "d" }]

/-- The session on "A-B" with one player, after the letters A and B were guessed. -/
def dashWorld : World :=
  { g :=
      { Players := [(1, 10)]
        Turn := 1
        Word := "A-B"
        RevealedWord := "A_B"
        Description := "d"
        Scores := [(1, 0)]
        WordList := []
        Message := rightMessage 200 }
    totalScore := 200
    moves := 3
    endGames := 0 }

/-- A session on "SEA" with one player and only the last letter hidden. -/
def lastWorld : World :=
  { g :=
      { Players := [(1, 10)]
        Turn := 1
        Word := "SEA"
        RevealedWord := "SE_"
        Description := "d"
        Scores := [(1, 0)]
        WordList := []
        Message := rightMessage 200 }
    totalScore := 200
    moves := 3
    endGames := 0 }

/-- The state `lastWorld` turns into when player 1 guesses "a": the game is over. -/
def overWorld : World :=
  { g :=
      { Players := []
        Turn := 1
        Word := ""
        RevealedWord := "SEA"
        Description := ""
        Scores := []
        WordList := []
        Message := rightMessage 300 }
    totalScore := 300
    moves := 3
    endGames := 1 }

/-- A session on "SEA TOWER" with one wrong guess left. -/
def lastMoveWorld : World := { seaWorld with moves := 1 }

/-- The state after `EndGame` and the rest of the `MakeGuess` call that ran it:
the word, the player map and the score map are empty and the turn is 1. -/
def Over (w : World) : Prop :=
  w.g.Word = "" ∧ w.g.Players = [] ∧ w.g.Scores = [] ∧ w.g.Turn = 1

/-- One-entry catalog with the word "A". -/
def singleA : List Word := [{ WordID := 1, WordEntry := "A", Description := "d" }]

/-- The "SEA TOWER" session after two players joined and player 1 left. -/
def danglingWorld : World :=
  { g :=
      { Players := [(2, 11)]
        Turn := 1
        Word := "SEA TOWER"
        RevealedWord := "___ _____"
        Description := "d"
        Scores := [(2, 0)]
        WordList := []
        Message := "" }
    totalScore := 0
    moves := 3
    endGames := 0 }

/-- Invariant relating mask and word: equal length until `EndGame` has run, empty
word afterwards. -/
def MaskInv (w : World) : Prop :=
  (w.endGames = 0 → w.g.RevealedWord.data.length = w.g.Word.data.length) ∧
    (0 < w.endGames → w.g.Word = "")

/-! ## Snapshots and socket writes -/

/-- Snapshot sent to clients (`type GameState struct`); `Connected` carries the
tag `json:"-"`, every other field is serialised. -/
structure GameState where
  Turn : Int
  Word : String
  RevealedWord : String
  Description : String
  Scores : GoMap Int
  Players : GoMap String
  ActivePlayer : Int
  WordList : List WonderWords.Word
  Connected : GoMap Conn
  Message : String
deriving DecidableEq

/-- Function `getPlayerName`. -/
def getPlayerName (playerID : Int) : String := "Player " ++ toString playerID

/-- Function `getPlayerNames`: one assignment `playerNames[id] = ...` per entry. -/
def getPlayerNames (players : GoMap Conn) : GoMap String :=
  players.foldl (fun playerNames e => playerNames.set e.1 (getPlayerName e.1)) []

/-- Method `Game.GetGameState`; the argument `playerID` is not used by the body. -/
def GetGameState (g : Game) (_playerID : Int) : GameState :=
  { Turn := g.Turn
    Word := g.Word
    RevealedWord := g.RevealedWord
    Description := g.Description
    Scores := g.Scores
    Players := getPlayerNames g.Players
    ActivePlayer := g.Turn
    WordList := g.WordList
    Connected := g.Players
    Message := g.Message }

/-- The write loop of `BroadcastGameState` over the entries of `g.Players`, in the
order of the list: the identifiers whose connection was written to, and whether
the loop ran to its end (a failed `WriteMessage` returns at once).  The outcome
of a write is given by `writeOk`. -/
def broadcastLoop (writeOk : Conn → Bool) (activePlayer : Int) :
    List (Int × Conn) → List Int × Bool
  | [] => ([], true)
  | (id, conn) :: rest =>
    if id != activePlayer then
      if writeOk conn then
        ((id :: (broadcastLoop writeOk activePlayer rest).1),
          (broadcastLoop writeOk activePlayer rest).2)
      else ([], false)
    else broadcastLoop writeOk activePlayer rest

/-- Method `Game.BroadcastGameState`, called with `strconv.Itoa(playerID)` (so that
`strconv.Atoi` succeeds): the identifiers written to and the success flag. -/
def BroadcastGameState (writeOk : Conn → Bool) (g : Game) (playerID : Int) :
    List Int × Bool :=
  let gameState := GetGameState g playerID
  broadcastLoop writeOk gameState.ActivePlayer g.Players

/-- The write loop at the end of `EndGame` over a player map: the identifiers whose
connection received the `gameOver` event. -/
def gameOverLoop (writeOk : Conn → Bool) : List (Int × Conn) → List Int
  | [] => []
  | (id, conn) :: rest =>
    if writeOk conn then id :: gameOverLoop writeOk rest else []

/-- The players that receive `gameOver` when `EndGame` runs in state `w`: the loop
ranges over `g.Players` as it stands after the resets at the top of `EndGame`. -/
def EndGameWrites (writeOk : Conn → Bool) (w : World) : List Int :=
  gameOverLoop writeOk (EndGame w).g.Players

/-- One round of the loop in `handlePlayerInput` after a guess was read:
`MakeGuess`, `NextTurn`, then `BroadcastGameState`.  The result is the new state
with the outcome of the broadcast; `none` when `MakeGuess` panics. -/
def handlePlayerInput (cm : CaseMap) (writeOk : Conn → Bool) (w : World)
    (playerID : Int) (character : String) : Option (World × List Int × Bool) :=
  match MakeGuess cm w playerID character with
  | none => none
  | some (w1, _) =>
    let w2 := NextTurn w1
    some (w2, BroadcastGameState writeOk w2.g playerID)

/-- Turn pointer after a `Guess` command, following the words of the
specification: unchanged when `playerID` is not the player at the turn pointer,
otherwise advanced to the next player in order, wrapping at the player count. -/
def specTurnAfterGuess (w : World) (playerID : Int) : Int :=
  if playerID = w.g.Turn then
    if w.g.Turn + 1 > w.g.Players.len then 1 else w.g.Turn + 1
  else w.g.Turn

/-- A session on "SEA TOWER" with players 1, 2 and 3, player 1 to move. -/
def trioWorld : World :=
  { g :=
      { Players := [(3, 12), (2, 11), (1, 10)]
        Turn := 1
        Word := "SEA TOWER"
        RevealedWord := "___ _____"
        Description := "d"
        Scores := [(3, 0), (2, 0), (1, 0)]
        WordList := []
        Message := "" }
    totalScore := 0
    moves := 3
    endGames := 0 }

/-- The game record of `seaWorld` with another secret word and nothing else changed. -/
def seaPowerGame : Game := { seaWorld.g with Word := "SEA POWER" }

/-- Three wrong guesses by the only player of a new "SEA TOWER" session. -/
def threeWrong : List Op :=
  [Op.addPlayer 10, Op.makeGuess 1 "z", Op.makeGuess 1 "q", Op.makeGuess 1 "x"]

/-- The state of `trioWorld` after player 1 sent the guess "e": two positions
revealed, the turn advanced by `MakeGuess` and again by `handlePlayerInput`. -/
def trioAfter : World :=
  { g :=
      { Players := [(3, 12), (2, 11), (1, 10)]
        Turn := 3
        Word := "SEA TOWER"
        RevealedWord := "_E_ ___E_"
        Description := "d"
        Scores := [(3, 0), (2, 0), (1, 0)]
        WordList := []
        Message := rightMessage 200 }
    totalScore := 200
    moves := 3
    endGames := 0 }

/-- The state `NewGame` returns on the catalog `singleA`. -/
def freshA : World :=
  { g :=
      { Players := []
        Turn := 1
        Word := "A"
        RevealedWord := "_"
        Description := "d"
        Scores := []
        WordList := []
        Message := "" }
    totalScore := 0
    moves := 3
    endGames := 0 }

/-! ## Theorems -/

/-! ### Field lemmas -/

theorem settleGuess_revealedWord (w : World) (isCorrect : Bool) (count : Int) :
    (settleGuess w isCorrect count).g.RevealedWord = w.g.RevealedWord := by
  unfold settleGuess
  split
  · cases isCorrect
    · simp only [Bool.false_eq_true, if_false]
      split <;> rfl
    · simp only [if_true]
      split <;> rfl
  · rfl

/-! ### The reveal loop -/

/-- A run of the loop without any matching rune returns its accumulators. -/
theorem revealLoop_no_match (cm : CaseMap) (character : String) :
    ∀ (word : List Char) (i : Nat) (rev : List Char) (ok : Bool) (cnt : Int),
      (∀ c ∈ word, runeMatches cm character c = false) →
      revealLoop cm character word i rev ok cnt = some (rev, ok, cnt) := by
  intro word
  induction word with
  | nil => intro i rev ok cnt _; rfl
  | cons c rest ih =>
    intro i rev ok cnt h
    have hc : runeMatches cm character c = false := h c (List.mem_cons_self c rest)
    simp only [revealLoop, hc, Bool.false_eq_true, if_false]
    exact ih (i + 1) rev ok cnt (fun d hd => h d (List.mem_cons_of_mem c hd))

/-- When the mask has room for the rest of the word, the loop terminates normally;
it overwrites exactly the matching positions and counts them. -/
theorem revealLoop_spec (cm : CaseMap) (character : String) :
    ∀ (word : List Char) (i : Nat) (rev : List Char) (ok : Bool) (cnt : Int),
      i + word.length ≤ rev.length →
      ∃ rev', revealLoop cm character word i rev ok cnt =
          some (rev', ok || word.any (runeMatches cm character),
            cnt + (word.countP (runeMatches cm character) : Nat)) ∧
        rev'.length = rev.length ∧
        (∀ j, j < i → rev'[j]? = rev[j]?) ∧
        (∀ j c r, word[j]? = some c → rev[i + j]? = some r →
          rev'[i + j]? = some (if runeMatches cm character c then c else r)) := by
  intro word
  induction word with
  | nil =>
    intro i rev ok cnt _
    exact ⟨rev, by simp [revealLoop], rfl, fun _ _ => rfl, by simp⟩
  | cons c rest ih =>
    intro i rev ok cnt hlen
    simp only [List.length_cons] at hlen
    by_cases hc : runeMatches cm character c = true
    · have hi : i < rev.length := by omega
      obtain ⟨rev', hrun, hl, hlow, hpos⟩ :=
        ih (i + 1) (rev.set i c) true (cnt + 1) (by simp only [List.length_set]; omega)
      refine ⟨rev', ?_, ?_, ?_, ?_⟩
      · have hcount : List.countP (runeMatches cm character) (c :: rest) =
            List.countP (runeMatches cm character) rest + 1 := by simp [hc]
        simp only [revealLoop, hc, if_true, hi, hrun, List.any_cons, Bool.true_or,
          Bool.or_true, hcount, Nat.cast_add, Nat.cast_one]
        congr 3
        ring
      · simpa using hl
      · intro j hj
        rw [hlow j (by omega), List.getElem?_set_ne (by omega)]
      · intro j d r hd hr
        cases j with
        | zero =>
          simp only [List.getElem?_cons_zero, Option.some.injEq] at hd
          subst hd
          simp only [Nat.add_zero, hc, if_true]
          rw [hlow i (by omega), List.getElem?_set_self hi]
        | succ j =>
          simp only [List.getElem?_cons_succ] at hd
          have hr' : (rev.set i c)[i + 1 + j]? = some r := by
            rw [List.getElem?_set_ne (by omega)]
            rw [show i + 1 + j = i + (j + 1) by omega]
            exact hr
          have := hpos j d r hd hr'
          rw [show i + (j + 1) = i + 1 + j by omega]
          exact this
    · have hc' : runeMatches cm character c = false := by simpa using hc
      obtain ⟨rev', hrun, hl, hlow, hpos⟩ := ih (i + 1) rev ok cnt (by omega)
      refine ⟨rev', ?_, hl, ?_, ?_⟩
      · have hcount : List.countP (runeMatches cm character) (c :: rest) =
            List.countP (runeMatches cm character) rest := by simp [hc']
        simp only [revealLoop, hc', Bool.false_eq_true, if_false, hrun, List.any_cons,
          Bool.false_or, hcount]
      · intro j hj
        exact hlow j (by omega)
      · intro j d r hd hr
        cases j with
        | zero =>
          simp only [List.getElem?_cons_zero, Option.some.injEq] at hd
          subst hd
          simp only [Nat.add_zero, hc', Bool.false_eq_true, if_false] at hr ⊢
          rw [hlow i (by omega)]
          exact hr
        | succ j =>
          simp only [List.getElem?_cons_succ] at hd
          have := hpos j d r hd (by rw [show i + 1 + j = i + (j + 1) by omega]; exact hr)
          rw [show i + (j + 1) = i + 1 + j by omega]
          exact this

/-- The guarded loop on a guess that is not yet in the mask, when the mask is at
least as long as the word. -/
theorem guessLoop_fresh (cm : CaseMap) (w : World) (character : String)
    (hguard : alreadyRevealed cm w character = false)
    (hlen : w.g.Word.data.length ≤ w.g.RevealedWord.data.length) :
    ∃ rev', guessLoop cm w character =
        some (rev', w.g.Word.data.any (runeMatches cm character),
          ((w.g.Word.data.countP (runeMatches cm character) : Nat) : Int)) ∧
      rev'.length = w.g.RevealedWord.data.length ∧
      (∀ (j : Nat) (c r : Char), w.g.Word.data[j]? = some c →
        w.g.RevealedWord.data[j]? = some r →
        rev'[j]? = some (if runeMatches cm character c then c else r)) := by
  obtain ⟨rev', hrun, hl, -, hpos⟩ :=
    revealLoop_spec cm character w.g.Word.data 0 w.g.RevealedWord.data false 0
      (by omega)
  refine ⟨rev', ?_, hl, ?_⟩
  · simp only [guessLoop, hguard, Bool.not_false, if_true, hrun, Bool.false_or,
      zero_add]
  · intro j c r hc hr
    have := hpos j c r hc (by simpa using hr)
    simpa using this

/-- The guarded loop on a guess that changes nothing: either the guard stops it or
no rune of the word matches. -/
theorem guessLoop_nothing (cm : CaseMap) (w : World) (character : String)
    (h : alreadyRevealed cm w character = true ∨
      ∀ c ∈ w.g.Word.data, runeMatches cm character c = false) :
    guessLoop cm w character = some (w.g.RevealedWord.data, false, 0) := by
  unfold guessLoop
  cases hg : alreadyRevealed cm w character with
  | true => simp
  | false =>
    rcases h with h | h
    · rw [hg] at h; exact absurd h (by decide)
    · simp only [Bool.not_false, if_true]
      exact revealLoop_no_match cm character _ 0 _ false 0 h

/-! ### Scoring and game over -/

theorem settleGuess_dash (w : World) (isCorrect : Bool) (count : Int)
    (h : stringsContains w.g.RevealedWord "-" = true) :
    settleGuess w isCorrect count = w := by
  simp [settleGuess, h]

theorem settleGuess_right (w : World) (count : Int)
    (h : stringsContains w.g.RevealedWord "-" = false) :
    settleGuess w true count =
      if w.g.RevealedWord = w.g.Word then
        EndGame (NextTurn { w with
          g := { w.g with Message := rightMessage (w.totalScore + 100 * count) }
          totalScore := w.totalScore + 100 * count })
      else
        NextTurn { w with
          g := { w.g with Message := rightMessage (w.totalScore + 100 * count) }
          totalScore := w.totalScore + 100 * count } := by
  simp only [settleGuess, h, Bool.not_false, if_true]
  rfl

theorem settleGuess_wrong (w : World) (count : Int)
    (h : stringsContains w.g.RevealedWord "-" = false) :
    settleGuess w false count =
      if w.moves = 1 then
        { NextTurn { EndGame w with
            g := { (EndGame w).g with
              Message := wrongMessage (w.totalScore - 100) (w.moves - 1) }
            totalScore := w.totalScore - 100 } with moves := w.moves - 1 }
      else
        { NextTurn { w with
            g := { w.g with Message := wrongMessage (w.totalScore - 100) (w.moves - 1) }
            totalScore := w.totalScore - 100 } with moves := w.moves - 1 } := by
  simp only [settleGuess, h, Bool.not_false, if_true, Bool.false_eq_true, if_false]
  split <;> rfl

/-! ### Unfolding `MakeGuess` -/

theorem makeGuess_of_loop (cm : CaseMap) (w : World) (playerID : Int)
    (character : String) (hturn : playerID = w.g.Turn) (rev : List Char) (ok : Bool)
    (cnt : Int) (h : guessLoop cm w character = some (rev, ok, cnt)) :
    MakeGuess cm w playerID character =
      some (settleGuess (storeMask w rev) ok cnt, ok) := by
  simp only [MakeGuess, hturn, if_true, h, storeMask]

theorem storeMask_same (w : World) : storeMask w w.g.RevealedWord.data = w := rfl

theorem makeGuess_not_turn_aux (cm : CaseMap) (w : World) (playerID : Int)
    (character : String) (h : playerID ≠ w.g.Turn) :
    MakeGuess cm w playerID character = some (w, false) := by
  unfold MakeGuess
  rw [if_neg (fun e => h e.symm)]

theorem makeGuess_inv (cm : CaseMap) (w : World) (playerID : Int)
    (character : String) (w' : World) (ok : Bool) (hturn : playerID = w.g.Turn)
    (h : MakeGuess cm w playerID character = some (w', ok)) :
    ∃ rev cnt, guessLoop cm w character = some (rev, ok, cnt) ∧
      w' = settleGuess (storeMask w rev) ok cnt := by
  unfold MakeGuess at h
  rw [if_pos hturn.symm] at h
  cases hl : guessLoop cm w character with
  | none => rw [hl] at h; exact absurd h (by simp)
  | some r =>
    obtain ⟨rev, ok', cnt⟩ := r
    rw [hl] at h
    simp only [Option.some.injEq, Prod.mk.injEq] at h
    obtain ⟨h1, h2⟩ := h
    subst h2
    exact ⟨rev, cnt, rfl, h1.symm⟩

/-! ### The state after game over -/

theorem settleGuess_over_of_endGames (w : World) (ok : Bool) (cnt : Int)
    (h : (settleGuess w ok cnt).endGames = w.endGames + 1) :
    Over (settleGuess w ok cnt) := by
  cases hd : stringsContains w.g.RevealedWord "-" with
  | true =>
    rw [settleGuess_dash _ _ _ hd] at h
    omega
  | false =>
    cases ok with
    | true =>
      rw [settleGuess_right _ _ hd] at h ⊢
      split at h
      · rw [if_pos (by assumption)]
        exact ⟨rfl, rfl, rfl, rfl⟩
      · exact absurd h (by simp [NextTurn])
    | false =>
      rw [settleGuess_wrong _ _ hd] at h ⊢
      split at h
      · rw [if_pos (by assumption)]
        refine ⟨rfl, rfl, rfl, ?_⟩
        simp [NextTurn, EndGame, GoMap.len]
      · exact absurd h (by simp [NextTurn])

theorem makeGuess_over (cm : CaseMap) (w : World) (playerID : Int)
    (character : String) (h : Over w) :
    ∃ w', MakeGuess cm w playerID character = some (w', false) ∧ Over w' ∧
      w'.g.Scores = w.g.Scores ∧ w'.g.RevealedWord = w.g.RevealedWord ∧
      w'.g.Turn = w.g.Turn ∧ (playerID ≠ 1 → w' = w) := by
  obtain ⟨hw, hp, hs, ht⟩ := h
  by_cases hturn : playerID = w.g.Turn
  · have hloop : guessLoop cm w character = some (w.g.RevealedWord.data, false, 0) :=
      guessLoop_nothing cm w character (Or.inr (by rw [hw]; simp))
    refine ⟨_, makeGuess_of_loop cm w playerID character hturn _ _ _ hloop, ?_⟩
    rw [storeMask_same]
    have hne : playerID ≠ 1 → False := fun hn => hn (hturn.trans ht)
    cases hd : stringsContains w.g.RevealedWord "-" with
    | true =>
      rw [settleGuess_dash _ _ _ hd]
      exact ⟨⟨hw, hp, hs, ht⟩, rfl, rfl, rfl, fun _ => rfl⟩
    | false =>
      rw [settleGuess_wrong _ _ hd]
      split
      · refine ⟨⟨rfl, rfl, rfl, ?_⟩, hs.symm, rfl, ?_, fun hn => (hne hn).elim⟩
        · simp [NextTurn, EndGame, GoMap.len]
        · simp [NextTurn, EndGame, GoMap.len, ht]
      · refine ⟨⟨hw, hp, hs, ?_⟩, rfl, rfl, ?_, fun hn => (hne hn).elim⟩
        · simp [NextTurn, GoMap.len, hp, ht]
        · simp [NextTurn, GoMap.len, hp, ht]
  · refine ⟨w, makeGuess_not_turn_aux cm w playerID character hturn,
      ⟨hw, hp, hs, ht⟩, rfl, rfl, rfl, fun _ => rfl⟩

theorem over_removePlayer (w : World) (playerID : Int) (h : Over w) :
    RemovePlayer w playerID = w := by
  obtain ⟨g, ts, mv, eg⟩ := w
  obtain ⟨players, turn, word, rev, desc, scores, wl, msg⟩ := g
  obtain ⟨-, hp, hs, -⟩ := h
  simp only at hp hs
  subst hp
  subst hs
  rfl

theorem over_nextTurn (w : World) (h : Over w) : NextTurn w = w := by
  obtain ⟨g, ts, mv, eg⟩ := w
  obtain ⟨players, turn, word, rev, desc, scores, wl, msg⟩ := g
  obtain ⟨-, hp, -, ht⟩ := h
  simp only at hp ht
  subst hp
  subst ht
  rfl

/-- One call other than `AddPlayer` in a state left by `EndGame`. -/
theorem step_over (cm : CaseMap) (w : World) (op : Op) (h : Over w)
    (hop : Op.isJoin op = false) :
    ∃ w', step cm w op = some w' ∧ Over w' ∧ w'.g.Scores = w.g.Scores ∧
      w'.g.RevealedWord = w.g.RevealedWord ∧ w'.g.Turn = w.g.Turn ∧
      (Op.quiet op = true → w' = w) := by
  cases op with
  | addPlayer conn => exact absurd hop (by simp [Op.isJoin])
  | removePlayer playerID =>
    refine ⟨w, ?_, h, rfl, rfl, rfl, fun _ => rfl⟩
    simp only [step, over_removePlayer w playerID h]
  | nextTurn =>
    refine ⟨w, ?_, h, rfl, rfl, rfl, fun _ => rfl⟩
    simp only [step, over_nextTurn w h]
  | endGame =>
    obtain ⟨hw, hp, hs, ht⟩ := h
    exact ⟨EndGame w, rfl, ⟨rfl, rfl, rfl, rfl⟩, hs.symm, rfl, ht.symm,
      fun hq => absurd hq (by simp [Op.quiet])⟩
  | makeGuess playerID character =>
    obtain ⟨w', hm, hov, hs, hr, ht, hsame⟩ := makeGuess_over cm w playerID character h
    refine ⟨w', by simp only [step, hm, Option.map_some'], hov, hs, hr, ht, fun hq => ?_⟩
    apply hsame
    simpa [Op.quiet] using hq

/-! ### Invariants along runs -/

theorem run_invariant (cm : CaseMap) (P : World → Prop)
    (hstep : ∀ w op w', P w → step cm w op = some w' → P w') :
    ∀ (ops : List Op) (w0 w : World), P w0 → run cm w0 ops = some w → P w := by
  intro ops
  induction ops with
  | nil =>
    intro w0 w h0 hrun
    simp only [run, Option.some.injEq] at hrun
    exact hrun ▸ h0
  | cons op rest ih =>
    intro w0 w h0 hrun
    simp only [run] at hrun
    cases hs : step cm w0 op with
    | none => rw [hs] at hrun; exact absurd hrun (by simp)
    | some w1 =>
      rw [hs] at hrun
      exact ih w1 w (hstep w0 op w1 h0 hs) hrun

theorem play_invariant (cm : CaseMap) (P : World → Prop)
    (hinit : ∀ wordList wordIndex w0, NewGame wordList wordIndex = some w0 → P w0)
    (hstep : ∀ w op w', P w → step cm w op = some w' → P w')
    (wordList : List Word) (wordIndex : Nat) (ops : List Op) (w : World)
    (h : play cm wordList wordIndex ops = some w) : P w := by
  unfold play at h
  cases hn : NewGame wordList wordIndex with
  | none => rw [hn] at h; exact absurd h (by simp)
  | some w0 =>
    rw [hn] at h
    exact run_invariant cm P hstep ops w0 w (hinit wordList wordIndex w0 hn) h

theorem newGame_inv (wordList : List Word) (wordIndex : Nat) (w0 : World)
    (h : NewGame wordList wordIndex = some w0) :
    ∃ word, w0.g.Word = word ∧ w0.g.RevealedWord = initialMask word.data ∧
      w0.g.Players = [] ∧ w0.g.Scores = [] ∧ w0.g.Turn = 1 ∧ w0.endGames = 0 ∧
      w0.moves = 3 ∧ w0.totalScore = 0 := by
  unfold NewGame at h
  cases hg : wordList.get? wordIndex with
  | none => rw [hg] at h; exact absurd h (by simp)
  | some word =>
    rw [hg] at h
    simp only [Option.some.injEq] at h
    subst h
    exact ⟨word.WordEntry, rfl, rfl, rfl, rfl, rfl, rfl, rfl, rfl⟩

theorem initialMask_length (l : List Char) : (initialMask l).data.length = l.length := by
  induction l with
  | nil => rfl
  | cons c rest ih =>
    simp only [initialMask, String.data_append, List.length_append, ih, List.length_cons]
    split <;> simp <;> omega

theorem revealLoop_length (cm : CaseMap) (character : String) :
    ∀ (word : List Char) (i : Nat) (rev : List Char) (ok : Bool) (cnt : Int)
      (rev' : List Char) (ok' : Bool) (cnt' : Int),
      revealLoop cm character word i rev ok cnt = some (rev', ok', cnt') →
      rev'.length = rev.length := by
  intro word
  induction word with
  | nil =>
    intro i rev ok cnt rev' ok' cnt' h
    simp only [revealLoop, Option.some.injEq, Prod.mk.injEq] at h
    rw [h.1]
  | cons c rest ih =>
    intro i rev ok cnt rev' ok' cnt' h
    simp only [revealLoop] at h
    split at h
    · split at h
      · have := ih _ _ _ _ _ _ _ h
        simpa using this
      · exact absurd h (by simp)
    · exact ih _ _ _ _ _ _ _ h

theorem guessLoop_length (cm : CaseMap) (w : World) (character : String)
    (rev : List Char) (ok : Bool) (cnt : Int)
    (h : guessLoop cm w character = some (rev, ok, cnt)) :
    rev.length = w.g.RevealedWord.data.length := by
  unfold guessLoop at h
  split at h
  · exact revealLoop_length cm character _ _ _ _ _ _ _ _ h
  · simp only [Option.some.injEq, Prod.mk.injEq] at h
    rw [← h.1]

/-- What `settleGuess` does to the word, the maps and the ghost counter: nothing,
or the resets of `EndGame`. -/
theorem settleGuess_cases (w : World) (ok : Bool) (cnt : Int) :
    ((settleGuess w ok cnt).g.Word = w.g.Word ∧
        (settleGuess w ok cnt).endGames = w.endGames ∧
        (settleGuess w ok cnt).g.Scores = w.g.Scores ∧
        (settleGuess w ok cnt).g.Players = w.g.Players) ∨
      ((settleGuess w ok cnt).g.Word = "" ∧
        (settleGuess w ok cnt).endGames = w.endGames + 1 ∧
        (settleGuess w ok cnt).g.Scores = [] ∧
        (settleGuess w ok cnt).g.Players = []) := by
  cases hd : stringsContains w.g.RevealedWord "-" with
  | true =>
    rw [settleGuess_dash _ _ _ hd]
    exact Or.inl ⟨rfl, rfl, rfl, rfl⟩
  | false =>
    cases ok with
    | true =>
      rw [settleGuess_right _ _ hd]
      split
      · exact Or.inr ⟨rfl, rfl, rfl, rfl⟩
      · exact Or.inl ⟨rfl, rfl, rfl, rfl⟩
    | false =>
      rw [settleGuess_wrong _ _ hd]
      split
      · exact Or.inr ⟨rfl, rfl, rfl, rfl⟩
      · exact Or.inl ⟨rfl, rfl, rfl, rfl⟩

/-- What `MakeGuess` does to the word, the mask length, the maps and the ghost
counter. -/
theorem makeGuess_cases (cm : CaseMap) (w w' : World) (playerID : Int)
    (character : String) (ok : Bool)
    (h : MakeGuess cm w playerID character = some (w', ok)) :
    w'.g.RevealedWord.data.length = w.g.RevealedWord.data.length ∧
      ((w'.g.Word = w.g.Word ∧ w'.endGames = w.endGames ∧
          w'.g.Scores = w.g.Scores ∧ w'.g.Players = w.g.Players) ∨
        (w'.g.Word = "" ∧ w'.endGames = w.endGames + 1 ∧
          w'.g.Scores = [] ∧ w'.g.Players = [])) := by
  by_cases hturn : playerID = w.g.Turn
  · obtain ⟨rev, cnt, hloop, hw'⟩ := makeGuess_inv cm w playerID character w' ok hturn h
    subst hw'
    refine ⟨?_, settleGuess_cases (storeMask w rev) ok cnt⟩
    rw [settleGuess_revealedWord]
    exact guessLoop_length cm w character rev ok cnt hloop
  · rw [makeGuess_not_turn_aux cm w playerID character hturn] at h
    simp only [Option.some.injEq, Prod.mk.injEq] at h
    rw [← h.1]
    exact ⟨rfl, Or.inl ⟨rfl, rfl, rfl, rfl⟩⟩

theorem step_maskInv (cm : CaseMap) (w : World) (op : Op) (w' : World)
    (hinv : MaskInv w) (h : step cm w op = some w') : MaskInv w' := by
  cases op with
  | addPlayer conn =>
    simp only [step, Option.some.injEq] at h
    subst h
    exact hinv
  | removePlayer playerID =>
    simp only [step, Option.some.injEq] at h
    subst h
    exact hinv
  | nextTurn =>
    simp only [step, Option.some.injEq] at h
    subst h
    exact hinv
  | endGame =>
    simp only [step, Option.some.injEq] at h
    subst h
    exact ⟨fun h0 => absurd h0 (by simp [EndGame]), fun _ => rfl⟩
  | makeGuess playerID character =>
    simp only [step] at h
    cases hm : MakeGuess cm w playerID character with
    | none => rw [hm] at h; exact absurd h (by simp)
    | some r =>
      obtain ⟨w1, ok⟩ := r
      rw [hm] at h
      simp only [Option.map_some', Option.some.injEq] at h
      subst h
      obtain ⟨hlen, hc | hc⟩ := makeGuess_cases cm w w1 playerID character ok hm
      · obtain ⟨hw, he, -, -⟩ := hc
        refine ⟨fun h0 => ?_, fun hp => ?_⟩
        · rw [hlen, hw]; exact hinv.1 (he ▸ h0)
        · rw [hw]; exact hinv.2 (he ▸ hp)
      · obtain ⟨hw, he, -, -⟩ := hc
        exact ⟨fun h0 => by omega, fun _ => hw⟩

theorem keys_set {V : Type} (m : GoMap V) (k : Int) (v : V) :
    (m.set k v).keys = k :: m.keys.filter (fun j => j != k) := by
  simp only [GoMap.set, GoMap.keys, List.map_cons, List.filter_map]
  rfl

theorem keys_delete {V : Type} (m : GoMap V) (k : Int) :
    (m.delete k).keys = m.keys.filter (fun j => j != k) := by
  simp only [GoMap.delete, GoMap.keys, List.filter_map]
  rfl

theorem step_keys (cm : CaseMap) (w : World) (op : Op) (w' : World)
    (hinv : w.g.Scores.keys = w.g.Players.keys) (h : step cm w op = some w') :
    w'.g.Scores.keys = w'.g.Players.keys := by
  cases op with
  | addPlayer conn =>
    simp only [step, Option.some.injEq] at h
    subst h
    simp only [AddPlayer, keys_set, hinv]
  | removePlayer playerID =>
    simp only [step, Option.some.injEq] at h
    subst h
    simp only [RemovePlayer, keys_delete, hinv]
  | nextTurn =>
    simp only [step, Option.some.injEq] at h
    subst h
    exact hinv
  | endGame =>
    simp only [step, Option.some.injEq] at h
    subst h
    rfl
  | makeGuess playerID character =>
    simp only [step] at h
    cases hm : MakeGuess cm w playerID character with
    | none => rw [hm] at h; exact absurd h (by simp)
    | some r =>
      obtain ⟨w1, ok⟩ := r
      rw [hm] at h
      simp only [Option.map_some', Option.some.injEq] at h
      subst h
      obtain ⟨-, hc | hc⟩ := makeGuess_cases cm w w1 playerID character ok hm
      · rw [hc.2.2.1, hc.2.2.2]; exact hinv
      · rw [hc.2.2.1, hc.2.2.2]; rfl

/-- C1: a guess from a player other than the one at `Turn` returns `false` and
leaves the whole state (in particular `Scores`, `RevealedWord`, `Turn`, `moves`,
`totalScore` and `Message`) unchanged. -/
theorem makeGuess_not_turn (cm : CaseMap) (w : World) (playerID : Int)
    (character : String) (h : playerID ≠ w.g.Turn) :
    MakeGuess cm w playerID character = some (w, false) :=
  makeGuess_not_turn_aux cm w playerID character h

/-- Witness for C1: player 2 guesses while player 1 is to move. -/
theorem makeGuess_not_turn_witness :
    MakeGuess asciiCase seaWorld 2 "e" = some (seaWorld, false) :=
  makeGuess_not_turn asciiCase seaWorld 2 "e" (by decide)

/-- C2: when it is the guesser's turn, the mask is as long as the word and neither
case form of the guess occurs in the mask, `MakeGuess` returns normally, every
position of the new mask holds the word's rune where that rune matches the guess
and its previous value elsewhere, and the returned flag is true exactly when some
position matched. -/
theorem makeGuess_reveals (cm : CaseMap) (w : World) (playerID : Int)
    (character : String) (hturn : playerID = w.g.Turn)
    (hlen : w.g.Word.data.length = w.g.RevealedWord.data.length)
    (hlo : stringsContains w.g.RevealedWord (cm.lower character) = false)
    (hup : stringsContains w.g.RevealedWord (cm.upper character) = false) :
    ∃ w' ok, MakeGuess cm w playerID character = some (w', ok) ∧
      w'.g.RevealedWord.data.length = w.g.RevealedWord.data.length ∧
      (∀ (i : Nat) (c r : Char), w.g.Word.data[i]? = some c → w.g.RevealedWord.data[i]? = some r →
        w'.g.RevealedWord.data[i]? =
          some (if String.singleton c = cm.lower character ∨
            String.singleton c = cm.upper character then c else r)) ∧
      (ok = true ↔ ∃ c ∈ w.g.Word.data,
        String.singleton c = cm.lower character ∨
          String.singleton c = cm.upper character) := by
  have hguard : alreadyRevealed cm w character = false := by
    simp [alreadyRevealed, hlo, hup]
  obtain ⟨rev', hloop, hl, hpos⟩ := guessLoop_fresh cm w character hguard (by omega)
  refine ⟨_, _, makeGuess_of_loop cm w playerID character hturn _ _ _ hloop, ?_, ?_, ?_⟩
  · simp only [settleGuess_revealedWord, storeMask]
    exact hl
  · intro i c r hc hr
    simp only [settleGuess_revealedWord, storeMask]
    have := hpos i c r hc hr
    simpa [runeMatches] using this
  · simp [runeMatches]

/-- Witness for C2: on "SEA TOWER" with the all-hidden mask, the guess "e" by the
player to move yields the mask "_E_ ___E_". -/
theorem makeGuess_reveals_witness :
    (MakeGuess asciiCase seaWorld 1 "e").map (fun r => (r.1.g.RevealedWord, r.2)) =
        some ("_E_ ___E_", true) ∧
      ∃ w' ok, MakeGuess asciiCase seaWorld 1 "e" = some (w', ok) ∧
        w'.g.RevealedWord.data.length = seaWorld.g.RevealedWord.data.length ∧
        (∀ (i : Nat) (c r : Char), seaWorld.g.Word.data[i]? = some c →
          seaWorld.g.RevealedWord.data[i]? = some r →
          w'.g.RevealedWord.data[i]? =
            some (if String.singleton c = asciiCase.lower "e" ∨
              String.singleton c = asciiCase.upper "e" then c else r)) ∧
        (ok = true ↔ ∃ c ∈ seaWorld.g.Word.data,
          String.singleton c = asciiCase.lower "e" ∨
            String.singleton c = asciiCase.upper "e") :=
  ⟨by decide,
   makeGuess_reveals asciiCase seaWorld 1 "e" (by decide) (by decide) (by decide)
    (by decide)⟩

/-- Counterexample for C3: in the "SEA TOWER" session player 1 guesses "e"; the
guess is accepted and reveals two positions, yet the guesser's entry in `Scores`
is 0 before and 0 after, not 200. -/
theorem makeGuess_scores_counterexample :
    seaWorld.g.Turn = 1 ∧
      seaWorld.g.Word.data.countP (runeMatches asciiCase "e") = 2 ∧
      seaWorld.g.Scores.get? 1 = some 0 ∧
      (MakeGuess asciiCase seaWorld 1 "e").map
          (fun r => (r.2, r.1.g.RevealedWord, r.1.g.Scores.get? 1)) =
        some (true, "_E_ ___E_", some 0) ∧
      ¬ ∃ w' ok, MakeGuess asciiCase seaWorld 1 "e" = some (w', ok) ∧
          w'.g.Scores.get? 1 = some (0 + 100 * 2) := by
  refine ⟨by decide, by decide, by decide, by decide, ?_⟩
  rintro ⟨w', ok, h, hs⟩
  have h2 : (MakeGuess asciiCase seaWorld 1 "e").map (fun r => r.1.g.Scores.get? 1) =
      some (some 0) := by decide
  rw [h] at h2
  simp only [Option.map_some'] at h2
  rw [hs] at h2
  exact absurd h2 (by decide)

/-- C3 (amended): an accepted guess that is not yet in the mask and matches
`k ≥ 1` positions of the word returns `true` and never credits the `Scores`
mapping.  When the new mask holds no "-", the shared total `totalScore` grows by
exactly `100 * k`, and `Scores` is unchanged if the mask still differs from the
word and emptied (by `EndGame`) if the mask now equals the word.  When the new
mask holds a "-", neither `totalScore` nor `Scores` changes. -/
theorem makeGuess_right_total (cm : CaseMap) (w : World) (playerID : Int)
    (character : String) (k : Nat) (hturn : playerID = w.g.Turn)
    (hguard : alreadyRevealed cm w character = false)
    (hlen : w.g.Word.data.length ≤ w.g.RevealedWord.data.length)
    (hk : w.g.Word.data.countP (runeMatches cm character) = k) (hpos : 1 ≤ k) :
    ∃ w', MakeGuess cm w playerID character = some (w', true) ∧
      (stringsContains w'.g.RevealedWord "-" = false →
        w'.totalScore = w.totalScore + 100 * (k : Int) ∧
        (w'.g.RevealedWord ≠ w.g.Word → w'.g.Scores = w.g.Scores) ∧
        (w'.g.RevealedWord = w.g.Word → w'.g.Scores = [])) ∧
      (stringsContains w'.g.RevealedWord "-" = true →
        w'.totalScore = w.totalScore ∧ w'.g.Scores = w.g.Scores) := by
  obtain ⟨rev', hloop, -, -⟩ := guessLoop_fresh cm w character hguard hlen
  have hany : w.g.Word.data.any (runeMatches cm character) = true := by
    rw [List.any_eq_true]
    have h0 : 0 < w.g.Word.data.countP (runeMatches cm character) := by omega
    obtain ⟨c, hc, hm⟩ := List.countP_pos_iff.mp h0
    exact ⟨c, hc, hm⟩
  rw [hany, hk] at hloop
  refine ⟨_, makeGuess_of_loop cm w playerID character hturn _ _ _ hloop, ?_, ?_⟩
  · intro hd
    rw [settleGuess_revealedWord] at hd ⊢
    rw [settleGuess_right _ _ hd]
    by_cases heq : (storeMask w rev').g.RevealedWord = (storeMask w rev').g.Word
    · rw [if_pos heq]
      exact ⟨rfl, fun hne => absurd heq hne, fun _ => rfl⟩
    · rw [if_neg heq]
      exact ⟨rfl, fun _ => rfl, fun he => absurd he heq⟩
  · intro hd
    rw [settleGuess_revealedWord] at hd
    rw [settleGuess_dash _ _ _ hd]
    exact ⟨rfl, rfl⟩

/-- Witness for C3 (amended): "e" on "SEA TOWER" matches two positions. -/
theorem makeGuess_right_total_witness :
    ∃ w', MakeGuess asciiCase seaWorld 1 "e" = some (w', true) ∧
      (stringsContains w'.g.RevealedWord "-" = false →
        w'.totalScore = seaWorld.totalScore + 100 * ((2 : Nat) : Int) ∧
        (w'.g.RevealedWord ≠ seaWorld.g.Word → w'.g.Scores = seaWorld.g.Scores) ∧
        (w'.g.RevealedWord = seaWorld.g.Word → w'.g.Scores = [])) ∧
      (stringsContains w'.g.RevealedWord "-" = true →
        w'.totalScore = seaWorld.totalScore ∧ w'.g.Scores = seaWorld.g.Scores) :=
  makeGuess_right_total asciiCase seaWorld 1 "e" 2 (by decide) (by decide) (by decide)
    (by decide) (by decide)

/-- C4: when it is the guesser's turn and the mask holds no "-", a guess that
reveals no position (it is already in the mask, or no rune of the word matches it)
returns `false` and lowers `moves` by exactly 1. -/
theorem makeGuess_wrong_moves (cm : CaseMap) (w : World) (playerID : Int)
    (character : String) (hturn : playerID = w.g.Turn)
    (hdash : stringsContains w.g.RevealedWord "-" = false)
    (hnone : alreadyRevealed cm w character = true ∨
      ∀ c ∈ w.g.Word.data, runeMatches cm character c = false) :
    ∃ w', MakeGuess cm w playerID character = some (w', false) ∧
      w'.moves = w.moves - 1 := by
  refine ⟨_, makeGuess_of_loop cm w playerID character hturn _ _ _
    (guessLoop_nothing cm w character hnone), ?_⟩
  rw [storeMask_same, settleGuess_wrong _ _ hdash]
  split <;> rfl

/-- Witness for C4: "z" on "SEA TOWER". -/
theorem makeGuess_wrong_moves_witness :
    ∃ w', MakeGuess asciiCase seaWorld 1 "z" = some (w', false) ∧
      w'.moves = seaWorld.moves - 1 :=
  makeGuess_wrong_moves asciiCase seaWorld 1 "z" (by decide) (by decide)
    (Or.inr (by decide))

/-- Counterexample for C5: from a new game on "A-B" one player guesses "a", "b"
and then "-"; the last guess is accepted and leaves the mask equal to the word,
but `EndGame` does not run: the word, the player map and the ghost counter are as
before. -/
theorem makeGuess_full_reveal_counterexample :
    play asciiCase hyphenated 0
        [Op.addPlayer 10, Op.makeGuess 1 "a", Op.makeGuess 1 "b"] =
      some dashWorld ∧
    dashWorld.g.Turn = 1 ∧
    (MakeGuess asciiCase dashWorld 1 "-").map
        (fun r => (r.2, r.1.g.RevealedWord, r.1.g.Word, r.1.g.Players, r.1.endGames)) =
      some (true, "A-B", "A-B", [(1, 10)], 0) := by
  refine ⟨by rfl, by decide, by rfl⟩

/-- C5 (amended): when the secret word holds no "-", an accepted guess that
reveals a position and leaves the mask equal to the word runs `EndGame`, whatever
the value of `moves`: the ghost counter grows by one and the word, the player map
and the score map are cleared, with `moves` untouched. -/
theorem makeGuess_full_reveal (cm : CaseMap) (w w' : World) (playerID : Int)
    (character : String) (hturn : playerID = w.g.Turn)
    (hres : MakeGuess cm w playerID character = some (w', true))
    (hfull : w'.g.RevealedWord = w.g.Word)
    (hdash : stringsContains w.g.Word "-" = false) :
    w'.endGames = w.endGames + 1 ∧ w'.g.Word = "" ∧ w'.g.Players = [] ∧
      w'.g.Scores = [] ∧ w'.g.Turn = 1 ∧ w'.moves = w.moves := by
  obtain ⟨rev, cnt, -, hw'⟩ := makeGuess_inv cm w playerID character w' true hturn hres
  subst hw'
  rw [settleGuess_revealedWord] at hfull
  have hd : stringsContains (storeMask w rev).g.RevealedWord "-" = false := by
    rw [hfull]; exact hdash
  have hfull' : (storeMask w rev).g.RevealedWord = (storeMask w rev).g.Word := hfull
  rw [settleGuess_right _ _ hd, if_pos hfull']
  exact ⟨rfl, rfl, rfl, rfl, rfl, rfl⟩

/-- Witness for C5 (amended): the last letter of "SEA". -/
theorem makeGuess_full_reveal_witness :
    overWorld.endGames = lastWorld.endGames + 1 ∧ overWorld.g.Word = "" ∧
      overWorld.g.Players = [] ∧ overWorld.g.Scores = [] ∧ overWorld.g.Turn = 1 ∧
      overWorld.moves = lastWorld.moves :=
  makeGuess_full_reveal asciiCase lastWorld overWorld 1 "a" (by decide) (by rfl)
    (by decide) (by decide)

/-- C6: when it is the guesser's turn, the mask holds no "-" and `moves` is 1, a
guess that reveals no position returns `false`, leaves `moves` at 0 and runs
`EndGame` (ghost counter plus one; word, player map and score map cleared). -/
theorem makeGuess_last_move (cm : CaseMap) (w : World) (playerID : Int)
    (character : String) (hturn : playerID = w.g.Turn)
    (hdash : stringsContains w.g.RevealedWord "-" = false)
    (hmoves : w.moves = 1)
    (hnone : alreadyRevealed cm w character = true ∨
      ∀ c ∈ w.g.Word.data, runeMatches cm character c = false) :
    ∃ w', MakeGuess cm w playerID character = some (w', false) ∧
      w'.moves = 0 ∧ w'.endGames = w.endGames + 1 ∧ w'.g.Word = "" ∧
      w'.g.Players = [] ∧ w'.g.Scores = [] ∧ w'.g.Turn = 1 := by
  refine ⟨_, makeGuess_of_loop cm w playerID character hturn _ _ _
    (guessLoop_nothing cm w character hnone), ?_⟩
  rw [storeMask_same, settleGuess_wrong _ _ hdash, if_pos hmoves]
  refine ⟨by simp [hmoves], rfl, rfl, rfl, rfl, ?_⟩
  simp [NextTurn, EndGame, GoMap.len]

/-- Witness for C6: "z" on "SEA TOWER" with one move left. -/
theorem makeGuess_last_move_witness :
    ∃ w', MakeGuess asciiCase lastMoveWorld 1 "z" = some (w', false) ∧
      w'.moves = 0 ∧ w'.endGames = lastMoveWorld.endGames + 1 ∧ w'.g.Word = "" ∧
      w'.g.Players = [] ∧ w'.g.Scores = [] ∧ w'.g.Turn = 1 :=
  makeGuess_last_move asciiCase lastMoveWorld 1 "z" (by decide) (by decide) (by decide)
    (Or.inr (by decide))

/-- Counterexample for C7: player 1 completes "SEA", so `EndGame` runs and the
session is over (`overWorld`); the next guess "z" of player 1 is still processed:
`moves` drops from 3 to 2 and `totalScore` from 300 to 200. -/
theorem guess_after_over_counterexample :
    MakeGuess asciiCase lastWorld 1 "a" = some (overWorld, true) ∧
    overWorld.endGames = lastWorld.endGames + 1 ∧
    overWorld.moves = 3 ∧ overWorld.totalScore = 300 ∧
    (MakeGuess asciiCase overWorld 1 "z").map
        (fun r => (r.2, r.1.moves, r.1.totalScore)) =
      some (false, 2, 200) := by
  refine ⟨by rfl, by decide, by decide, by decide, by decide⟩

/-- C7 (amended): once a `MakeGuess` call has run `EndGame`, every later sequence
of calls without an `AddPlayer` (`MakeGuess` for any players and characters,
`RemovePlayer`, `NextTurn`, `EndGame`) returns normally and leaves `Scores`,
`RevealedWord` and `Turn` unchanged; if the sequence holds only `RemovePlayer`,
`NextTurn` and `MakeGuess` calls of players other than 1 (the value of `Turn`),
the whole state, `moves`, `totalScore` and `Message` included, is unchanged. -/
theorem guesses_after_endGame (cm : CaseMap) (w w1 : World) (playerID : Int)
    (character : String) (ok : Bool)
    (hres : MakeGuess cm w playerID character = some (w1, ok))
    (hover : w1.endGames = w.endGames + 1) (ops : List Op)
    (hops : ∀ op ∈ ops, Op.isJoin op = false) :
    ∃ w2, run cm w1 ops = some w2 ∧ w2.g.Scores = w1.g.Scores ∧
      w2.g.RevealedWord = w1.g.RevealedWord ∧ w2.g.Turn = w1.g.Turn ∧
      ((∀ op ∈ ops, Op.quiet op = true) → w2 = w1) := by
  have hov : Over w1 := by
    by_cases hturn : playerID = w.g.Turn
    · obtain ⟨rev, cnt, -, hw1⟩ := makeGuess_inv cm w playerID character w1 ok hturn hres
      subst hw1
      exact settleGuess_over_of_endGames _ _ _ hover
    · rw [makeGuess_not_turn_aux cm w playerID character hturn] at hres
      simp only [Option.some.injEq, Prod.mk.injEq] at hres
      rw [← hres.1] at hover
      omega
  clear hres hover
  induction ops generalizing w1 with
  | nil => exact ⟨w1, rfl, rfl, rfl, rfl, fun _ => rfl⟩
  | cons op rest ih =>
    obtain ⟨w', hstep, hov', hs, hr, ht, hsame⟩ :=
      step_over cm w1 op hov (hops op (List.mem_cons_self _ _))
    obtain ⟨w2, hrun, hs2, hr2, ht2, hsame2⟩ :=
      ih w' (fun o ho => hops o (List.mem_cons_of_mem _ ho)) hov'
    refine ⟨w2, ?_, hs2.trans hs, hr2.trans hr, ht2.trans ht, ?_⟩
    · simp only [run, hstep, hrun]
    · intro hall
      have h1 : w' = w1 := hsame (hall op (List.mem_cons_self _ _))
      have h2 : w2 = w' := hsame2 (fun o ho => hall o (List.mem_cons_of_mem _ ho))
      rw [h2, h1]

/-- Witness for C7 (amended): after player 1 has completed "SEA", guesses by
players 1 and 2 mixed with a `NextTurn` and a `RemovePlayer` leave the score map,
the mask and the turn as they were. -/
theorem guesses_after_endGame_witness :
    ∃ w2, run asciiCase overWorld
        [Op.makeGuess 1 "z", Op.nextTurn, Op.makeGuess 2 "s", Op.removePlayer 1] =
          some w2 ∧
      w2.g.Scores = overWorld.g.Scores ∧
      w2.g.RevealedWord = overWorld.g.RevealedWord ∧ w2.g.Turn = overWorld.g.Turn ∧
      ((∀ op ∈ [Op.makeGuess 1 "z", Op.nextTurn, Op.makeGuess 2 "s", Op.removePlayer 1],
          Op.quiet op = true) → w2 = overWorld) :=
  guesses_after_endGame asciiCase lastWorld overWorld 1 "a" true (by rfl) (by decide)
    [Op.makeGuess 1 "z", Op.nextTurn, Op.makeGuess 2 "s", Op.removePlayer 1]
    (by decide)

/-- Counterexample for C8: a new game on the word "A", one player joins and
guesses "a"; the guess completes the word, `EndGame` clears `Word` and keeps the
mask, so the word has 0 characters and the mask 1. -/
theorem mask_length_counterexample :
    (play asciiCase singleA 0 [Op.addPlayer 10, Op.makeGuess 1 "a"]).map
        (fun w => (w.g.Word, w.g.RevealedWord, w.g.Word.data.length,
          w.g.RevealedWord.data.length, w.endGames)) =
      some ("", "A", 0, 1, 1) := by
  rfl

/-- C8 (amended): in every state reached from a new game by `AddPlayer`,
`RemovePlayer`, `MakeGuess` (and `NextTurn`, `EndGame`) calls, the mask and the
word have the same number of characters as long as `EndGame` has not run, and
the word is empty once it has. -/
theorem mask_length_until_endGame (cm : CaseMap) (wordList : List Word)
    (wordIndex : Nat) (ops : List Op) (w : World)
    (h : play cm wordList wordIndex ops = some w) :
    (w.endGames = 0 → w.g.RevealedWord.data.length = w.g.Word.data.length) ∧
      (0 < w.endGames → w.g.Word = "") := by
  refine play_invariant cm MaskInv ?_ (step_maskInv cm) wordList wordIndex ops w h
  intro wl i w0 h0
  obtain ⟨word, hw, hr, -, -, -, he, -, -⟩ := newGame_inv wl i w0 h0
  refine ⟨fun _ => ?_, fun hp => by omega⟩
  rw [hr, hw, initialMask_length]

/-- Witness for C8 (amended): the "A-B" session after two accepted guesses. -/
theorem mask_length_until_endGame_witness :
    (dashWorld.endGames = 0 →
        dashWorld.g.RevealedWord.data.length = dashWorld.g.Word.data.length) ∧
      (0 < dashWorld.endGames → dashWorld.g.Word = "") :=
  mask_length_until_endGame asciiCase hyphenated 0
    [Op.addPlayer 10, Op.makeGuess 1 "a", Op.makeGuess 1 "b"] dashWorld (by rfl)

/-- C9 (failing run): a new game, two players join (identifiers 1 and 2) and
player 1 leaves.  One player is connected, `Turn` is still 1, and 1 is not a key
of `Players`; no identifier a connected player holds equals `Turn`. -/
theorem turn_dangling_after_leave :
    play asciiCase seaTower 0 [Op.addPlayer 10, Op.addPlayer 11, Op.removePlayer 1] =
        some danglingWorld ∧
      danglingWorld.g.Players.keys = [2] ∧ danglingWorld.g.Turn = 1 ∧
      danglingWorld.g.Turn ∉ danglingWorld.g.Players.keys := by
  refine ⟨by rfl, by rfl, by rfl, by decide⟩

/-- C10: in every state reached from a new game by `AddPlayer`, `RemovePlayer`,
`MakeGuess`, `EndGame` (and `NextTurn`) calls, `Scores` and `Players` have the
same key set. -/
theorem scores_keys_eq_players_keys (cm : CaseMap) (wordList : List Word)
    (wordIndex : Nat) (ops : List Op) (w : World)
    (h : play cm wordList wordIndex ops = some w) :
    ∀ k : Int, k ∈ w.g.Scores.keys ↔ k ∈ w.g.Players.keys := by
  have hkeys : w.g.Scores.keys = w.g.Players.keys := by
    refine play_invariant cm (fun w => w.g.Scores.keys = w.g.Players.keys) ?_
      (step_keys cm) wordList wordIndex ops w h
    intro wl i w0 h0
    obtain ⟨word, -, -, hp, hs, -, -, -, -⟩ := newGame_inv wl i w0 h0
    rw [hp, hs]; rfl
  intro k
  rw [hkeys]

/-- Witness for C10: the "SEA TOWER" session after two joins and one leave; the
identifier 2 is a key of both maps. -/
theorem scores_keys_eq_players_keys_witness :
    play asciiCase seaTower 0 [Op.addPlayer 10, Op.addPlayer 11, Op.removePlayer 1] =
        some danglingWorld ∧
      ((2 : Int) ∈ danglingWorld.g.Scores.keys ↔ (2 : Int) ∈ danglingWorld.g.Players.keys) :=
  ⟨by rfl,
   scores_keys_eq_players_keys asciiCase seaTower 0
    [Op.addPlayer 10, Op.addPlayer 11, Op.removePlayer 1] danglingWorld (by rfl) 2⟩

/-! ### The initial mask -/

theorem initialMask_data (l : List Char) :
    (initialMask l).data = l.map (fun c => if c = ' ' then ' ' else '_') := by
  induction l with
  | nil => rfl
  | cons c rest ih =>
    simp only [initialMask, String.data_append, ih, List.map_cons]
    split <;> rfl

/-- C11: for every catalog entry drawn, `NewGame` returns a state whose mask has
as many characters as the word, with a space wherever the word has a space and
the placeholder `_` at every other position. -/
theorem newGame_mask (wordList : List Word) (wordIndex : Nat) (word : Word)
    (h : wordList.get? wordIndex = some word) :
    ∃ w0, NewGame wordList wordIndex = some w0 ∧ w0.g.Word = word.WordEntry ∧
      w0.g.RevealedWord.data.length = word.WordEntry.data.length ∧
      ∀ (i : Nat) (c : Char), word.WordEntry.data[i]? = some c →
        w0.g.RevealedWord.data[i]? = some (if c = ' ' then ' ' else '_') := by
  have hnew : NewGame wordList wordIndex =
      some
        { g :=
            { Players := []
              Turn := 1
              Word := word.WordEntry
              RevealedWord := initialMask word.WordEntry.data
              Description := word.Description
              Scores := []
              WordList := []
              Message := "" }
          totalScore := 0
          moves := 3
          endGames := 0 } := by
    simp only [NewGame, h]
  refine ⟨_, hnew, rfl, ?_, ?_⟩
  · simp only [initialMask_data, List.length_map]
  · intro i c hc
    simp only [initialMask_data, List.getElem?_map, hc, Option.map_some']

/-- Witness for C11: "SEA TOWER" gives "___ _____". -/
theorem newGame_mask_witness :
    (NewGame seaTower 0).map (fun w => w.g.RevealedWord) = some "___ _____" ∧
      ∃ w0, NewGame seaTower 0 = some w0 ∧ w0.g.Word = "SEA TOWER" ∧
        w0.g.RevealedWord.data.length = "SEA TOWER".data.length ∧
        ∀ (i : Nat) (c : Char), "SEA TOWER".data[i]? = some c →
          w0.g.RevealedWord.data[i]? = some (if c = ' ' then ' ' else '_') :=
  ⟨by decide,
   newGame_mask seaTower 0 { WordID := 1, WordEntry := "SEA TOWER", Description := "d" }
    (by rfl)⟩

/-- C12 (failing run): `EndGame` runs in the "SEA" session while player 1 is
connected and every write would succeed, yet the `gameOver` loop writes to no
connection: it ranges over the player map that `EndGame` has just emptied. -/
theorem endGame_writes_nobody :
    lastWorld.g.Players.keys = [1] ∧
      (EndGame lastWorld).g.Players = [] ∧
      EndGameWrites (fun _ => true) lastWorld = [] := by
  refine ⟨by rfl, by rfl, by rfl⟩

/-! ### Broadcasts -/

theorem broadcastLoop_all (writeOk : Conn → Bool) (activePlayer : Int)
    (hall : ∀ c, writeOk c = true) (players : List (Int × Conn)) :
    broadcastLoop writeOk activePlayer players =
      ((players.filter (fun e => e.1 != activePlayer)).map Prod.fst, true) := by
  induction players with
  | nil => rfl
  | cons e rest ih =>
    obtain ⟨id, conn⟩ := e
    simp only [broadcastLoop, hall conn, if_true, ih]
    by_cases hid : (id != activePlayer) = true
    · simp [hid]
    · simp [hid]

/-- Counterexample for C13: players 1, 2 and 3 are connected, player 1 guesses
"e" and every write succeeds.  After `MakeGuess` and `NextTurn` the turn is 3, and
the snapshot is written to players 2 and 1: the guesser receives it and player 3
does not. -/
theorem broadcast_counterexample :
    trioWorld.g.Players.keys = [3, 2, 1] ∧
      (handlePlayerInput asciiCase (fun _ => true) trioWorld 1 "e").map
          (fun r => (r.1.g.Turn, r.2.1, r.2.2)) =
        some (3, [2, 1], true) ∧
      (1 : Int) ∈ [(2 : Int), 1] ∧ (3 : Int) ∉ [(2 : Int), 1] := by
  refine ⟨by rfl, by rfl, by decide, by decide⟩

/-- C13 (amended): when a guess message is processed and no write fails,
`BroadcastGameState` writes the snapshot to exactly the connected players whose
identifier differs from `Turn` as it stands after `MakeGuess` and the `NextTurn`
that follows it (the snapshot's `ActivePlayer`). -/
theorem broadcast_recipients (cm : CaseMap) (writeOk : Conn → Bool) (w w' : World)
    (playerID : Int) (character : String) (ids : List Int) (ok : Bool)
    (hall : ∀ c, writeOk c = true)
    (h : handlePlayerInput cm writeOk w playerID character = some (w', ids, ok)) :
    ok = true ∧ ∀ id : Int, id ∈ ids ↔ (id ∈ w'.g.Players.keys ∧ id ≠ w'.g.Turn) := by
  unfold handlePlayerInput at h
  cases hm : MakeGuess cm w playerID character with
  | none => rw [hm] at h; exact absurd h (by simp)
  | some r =>
    obtain ⟨w1, b⟩ := r
    rw [hm] at h
    simp only [Option.some.injEq, Prod.mk.injEq, BroadcastGameState, GetGameState,
      broadcastLoop_all writeOk _ hall] at h
    obtain ⟨hw, hids, hok⟩ := h
    subst hw
    subst hids
    refine ⟨hok.symm, fun id => ?_⟩
    simp only [GoMap.keys, List.mem_map, List.mem_filter, bne_iff_ne, ne_eq]
    constructor
    · rintro ⟨e, ⟨he, hne⟩, rfl⟩
      exact ⟨⟨e, he, rfl⟩, hne⟩
    · rintro ⟨⟨e, he, rfl⟩, hne⟩
      exact ⟨e, ⟨he, hne⟩, rfl⟩

/-- Witness for C13 (amended): the three-player session, guess "e" by player 1. -/
theorem broadcast_recipients_witness :
    handlePlayerInput asciiCase (fun _ => true) trioWorld 1 "e" =
        some (trioAfter, [2, 1], true) ∧
      true = true ∧
      ∀ id : Int, id ∈ [(2 : Int), 1] ↔
        (id ∈ trioAfter.g.Players.keys ∧ id ≠ trioAfter.g.Turn) :=
  ⟨by rfl,
   broadcast_recipients asciiCase (fun _ => true) trioWorld trioAfter 1 "e" [2, 1] true
    (fun _ => rfl) (by rfl)⟩

/-! ### Snapshots -/

/-- Counterexample for C14: two game records that differ only in `Word` get
different snapshots, and the snapshot's `Word` field is the secret word. -/
theorem getGameState_counterexample :
    seaPowerGame = { seaWorld.g with Word := "SEA POWER" } ∧
      (GetGameState seaWorld.g 1).Word = "SEA TOWER" ∧
      (GetGameState seaPowerGame 1).Word = "SEA POWER" ∧
      GetGameState seaWorld.g 1 ≠ GetGameState seaPowerGame 1 := by
  refine ⟨rfl, rfl, rfl, fun h => ?_⟩
  have hw := congrArg GameState.Word h
  exact absurd hw (by decide)

/-- C14 (amended): the snapshot of `GetGameState` does not hide the secret word:
its `Word` field is the word itself.  For two game records that differ only in
`Word` the snapshots, for any two player identifiers, agree on every field but
`Word`. -/
theorem getGameState_word (g : Game) (word : String) (p q : Int) :
    (GetGameState g p).Word = g.Word ∧
      GetGameState { g with Word := word } q = { GetGameState g p with Word := word } :=
  ⟨rfl, rfl⟩

/-! ### The state left by `EndGame` -/

theorem revealLoop_true (cm : CaseMap) (character : String) :
    ∀ (word : List Char) (i : Nat) (rev : List Char) (cnt : Int)
      (rev' : List Char) (ok' : Bool) (cnt' : Int),
      revealLoop cm character word i rev true cnt = some (rev', ok', cnt') →
      ok' = true := by
  intro word
  induction word with
  | nil =>
    intro i rev cnt rev' ok' cnt' h
    simp only [revealLoop, Option.some.injEq, Prod.mk.injEq] at h
    exact h.2.1.symm
  | cons c rest ih =>
    intro i rev cnt rev' ok' cnt' h
    simp only [revealLoop] at h
    split at h
    · split at h
      · exact ih _ _ _ _ _ _ h
      · exact absurd h (by simp)
    · exact ih _ _ _ _ _ _ h

theorem revealLoop_false (cm : CaseMap) (character : String) :
    ∀ (word : List Char) (i : Nat) (rev : List Char) (ok : Bool) (cnt : Int)
      (rev' : List Char) (cnt' : Int),
      revealLoop cm character word i rev ok cnt = some (rev', false, cnt') →
      rev' = rev := by
  intro word
  induction word with
  | nil =>
    intro i rev ok cnt rev' cnt' h
    simp only [revealLoop, Option.some.injEq, Prod.mk.injEq] at h
    exact h.1.symm
  | cons c rest ih =>
    intro i rev ok cnt rev' cnt' h
    simp only [revealLoop] at h
    split at h
    · split at h
      · exact absurd (revealLoop_true cm character _ _ _ _ _ _ _ h) (by simp)
      · exact absurd h (by simp)
    · exact ih _ _ _ _ _ _ h

theorem guessLoop_false (cm : CaseMap) (w : World) (character : String)
    (rev : List Char) (cnt : Int)
    (h : guessLoop cm w character = some (rev, false, cnt)) :
    rev = w.g.RevealedWord.data := by
  unfold guessLoop at h
  split at h
  · exact revealLoop_false cm character _ _ _ _ _ _ _ h
  · simp only [Option.some.injEq, Prod.mk.injEq] at h
    exact h.1.symm

/-- Counterexample for C15: a new "SEA TOWER" session, one player, three wrong
guesses.  The third runs `EndGame`; afterwards `Word` is empty (not an entry of
the catalog), the mask is still the mask of "SEA TOWER" (not the initial mask of
the empty word) and `moves` is 0, not 3. -/
theorem endGame_reset_counterexample :
    (play asciiCase seaTower 0 threeWrong).map
        (fun w => (w.endGames, w.g.Word, w.g.RevealedWord, w.g.Scores, w.moves)) =
      some (1, "", "___ _____", [], 0) ∧
    "" ∉ seaTower.map Word.WordEntry ∧
    initialMask "".data ≠ "___ _____" ∧
    (NewGame seaTower 0).map (fun w => w.moves) = some 3 := by
  refine ⟨by rfl, by decide, by decide, by rfl⟩

/-- C15 (amended): after a `MakeGuess` call that runs `EndGame` the session is
cleared, not dealt again: `Word` and `Description` are empty, `Scores` and
`Players` are empty and `Turn` is 1; the mask keeps its length, being the
completed word after a full reveal and the unchanged mask after the last wrong
guess; `moves` is not reset (unchanged after a full reveal, 0 after the last
wrong guess). -/
theorem endGame_reset (cm : CaseMap) (w w' : World) (playerID : Int)
    (character : String) (ok : Bool)
    (hres : MakeGuess cm w playerID character = some (w', ok))
    (hover : w'.endGames = w.endGames + 1) :
    w'.g.Word = "" ∧ w'.g.Description = "" ∧ w'.g.Scores = [] ∧ w'.g.Players = [] ∧
      w'.g.Turn = 1 ∧
      w'.g.RevealedWord.data.length = w.g.RevealedWord.data.length ∧
      (ok = true → w'.g.RevealedWord = w.g.Word ∧ w'.moves = w.moves) ∧
      (ok = false → w'.g.RevealedWord = w.g.RevealedWord ∧ w'.moves = 0) := by
  by_cases hturn : playerID = w.g.Turn
  · obtain ⟨rev, cnt, hloop, hw'⟩ :=
      makeGuess_inv cm w playerID character w' ok hturn hres
    have hlen := guessLoop_length cm w character rev ok cnt hloop
    subst hw'
    cases hd : stringsContains (storeMask w rev).g.RevealedWord "-" with
    | true =>
      rw [settleGuess_dash _ _ _ hd] at hover
      exact absurd hover (by simp [storeMask])
    | false =>
      cases ok with
      | true =>
        rw [settleGuess_right _ _ hd] at hover ⊢
        split at hover
        · rename_i heq
          rw [if_pos heq]
          exact ⟨rfl, rfl, rfl, rfl, rfl, hlen, fun _ => ⟨heq, rfl⟩,
            fun hf => absurd hf (by simp)⟩
        · exact absurd hover (by simp [NextTurn, storeMask])
      | false =>
        have hrev := guessLoop_false cm w character rev cnt hloop
        subst hrev
        rw [storeMask_same] at hd hover ⊢
        rw [settleGuess_wrong _ _ hd] at hover ⊢
        split at hover
        · rename_i hm
          rw [if_pos hm]
          refine ⟨rfl, rfl, rfl, rfl, ?_, rfl, fun hf => absurd hf (by simp),
            fun _ => ⟨rfl, ?_⟩⟩
          · simp [NextTurn, EndGame, GoMap.len]
          · simp [hm]
        · exact absurd hover (by simp [NextTurn])
  · rw [makeGuess_not_turn_aux cm w playerID character hturn] at hres
    simp only [Option.some.injEq, Prod.mk.injEq] at hres
    rw [← hres.1] at hover
    omega

/-- Witness for C15 (amended): the guess that completes "SEA". -/
theorem endGame_reset_witness :
    overWorld.g.Word = "" ∧ overWorld.g.Description = "" ∧ overWorld.g.Scores = [] ∧
      overWorld.g.Players = [] ∧ overWorld.g.Turn = 1 ∧
      overWorld.g.RevealedWord.data.length = lastWorld.g.RevealedWord.data.length ∧
      (true = true → overWorld.g.RevealedWord = lastWorld.g.Word ∧
        overWorld.moves = lastWorld.moves) ∧
      (true = false → overWorld.g.RevealedWord = lastWorld.g.RevealedWord ∧
        overWorld.moves = 0) :=
  endGame_reset asciiCase lastWorld overWorld 1 "a" true (by rfl) (by decide)

/-! ### The turn pointer in `handlePlayerInput` -/

/-- C16 (failing runs): in the session with players 1 and 2 and `Turn = 1`, an
accepted guess by player 1 processed by `handlePlayerInput` leaves `Turn = 1`
(advanced by `MakeGuess`, advanced again and wrapped by the extra `NextTurn`)
where the Guess command gives 2; a guess by player 2, who is not at the turn
pointer, leaves `Turn = 2` where the command leaves it at 1. -/
theorem handlePlayerInput_turn :
    seaWorld.g.Players.keys = [2, 1] ∧ seaWorld.g.Turn = 1 ∧
      (MakeGuess asciiCase seaWorld 1 "e").map (fun r => (r.2, r.1.g.Turn)) =
        some (true, 2) ∧
      (handlePlayerInput asciiCase (fun _ => true) seaWorld 1 "e").map
          (fun r => r.1.g.Turn) = some 1 ∧
      specTurnAfterGuess seaWorld 1 = 2 ∧
      (handlePlayerInput asciiCase (fun _ => true) seaWorld 2 "e").map
          (fun r => r.1.g.Turn) = some 2 ∧
      specTurnAfterGuess seaWorld 2 = 1 := by
  refine ⟨by rfl, by rfl, by rfl, by rfl, by rfl, by rfl, by rfl⟩

/-! ### Identifiers handed out by `AddPlayer` -/

/-- C18 (failing run): a new game, two joins (identifiers 1 and 2), player 1
leaves, a third connection joins.  `AddPlayer` returns 2, the identifier the
second connection still holds; the join replaces that registration (connection
11 by connection 12), sets the entry `Scores[2]` again, and the number of
connected players stays 1. -/
theorem addPlayer_reuses_identifier :
    play asciiCase seaTower 0 [Op.addPlayer 10, Op.addPlayer 11, Op.removePlayer 1] =
        some danglingWorld ∧
      danglingWorld.g.Players = [(2, 11)] ∧
      (AddPlayer danglingWorld 12).2 = 2 ∧
      (2 : Int) ∈ danglingWorld.g.Players.keys ∧
      (AddPlayer danglingWorld 12).1.g.Players = [(2, 12)] ∧
      (AddPlayer danglingWorld 12).1.g.Scores = [(2, 0)] ∧
      (AddPlayer danglingWorld 12).1.g.Players.len = danglingWorld.g.Players.len := by
  refine ⟨by rfl, by rfl, by rfl, by decide, by rfl, by rfl, by rfl⟩

/-! ### Repeated guesses -/

/-- C19: when it is the guesser's turn and the mask holds no "-", a guess whose
lower-case or upper-case form already occurs in the mask is handled exactly like
a wrong guess: the call returns `false` with the same resulting state as any
guess that matches no rune of the word, the mask is unchanged, `moves` drops by 1
and `totalScore` by 100, `NextTurn` runs, and `EndGame` runs when `moves` was 1. -/
theorem makeGuess_repeated (cm : CaseMap) (w : World) (playerID : Int)
    (character : String) (hturn : playerID = w.g.Turn)
    (hdash : stringsContains w.g.RevealedWord "-" = false)
    (hrep : stringsContains w.g.RevealedWord (cm.lower character) = true ∨
      stringsContains w.g.RevealedWord (cm.upper character) = true) :
    ∃ w', MakeGuess cm w playerID character = some (w', false) ∧
      (∀ other : String, (∀ c ∈ w.g.Word.data, runeMatches cm other c = false) →
        MakeGuess cm w playerID other = some (w', false)) ∧
      w'.g.RevealedWord = w.g.RevealedWord ∧
      w'.moves = w.moves - 1 ∧ w'.totalScore = w.totalScore - 100 ∧
      (w.moves ≠ 1 → w'.g.Turn = (NextTurn w).g.Turn ∧ w'.endGames = w.endGames) ∧
      (w.moves = 1 → w'.g.Turn = (NextTurn (EndGame w)).g.Turn ∧
        w'.endGames = w.endGames + 1) := by
  have hguard : alreadyRevealed cm w character = true := by
    rcases hrep with h | h <;> simp [alreadyRevealed, h]
  refine ⟨_, makeGuess_of_loop cm w playerID character hturn _ _ _
    (guessLoop_nothing cm w character (Or.inl hguard)), ?_, ?_⟩
  · intro other hother
    exact makeGuess_of_loop cm w playerID other hturn _ _ _
      (guessLoop_nothing cm w other (Or.inr hother))
  · rw [storeMask_same, settleGuess_wrong _ _ hdash]
    by_cases hm : w.moves = 1
    · rw [if_pos hm]
      exact ⟨rfl, rfl, rfl, fun hn => absurd hm hn, fun _ => ⟨rfl, rfl⟩⟩
    · rw [if_neg hm]
      exact ⟨rfl, rfl, rfl, fun _ => ⟨rfl, rfl⟩, fun h1 => absurd h1 hm⟩

/-- Witness for C19: the empty guess on "SEA TOWER" (the empty string occurs in
every mask). -/
theorem makeGuess_repeated_witness :
    ∃ w', MakeGuess asciiCase seaWorld 1 "" = some (w', false) ∧
      (∀ other : String,
        (∀ c ∈ seaWorld.g.Word.data, runeMatches asciiCase other c = false) →
        MakeGuess asciiCase seaWorld 1 other = some (w', false)) ∧
      w'.g.RevealedWord = seaWorld.g.RevealedWord ∧
      w'.moves = seaWorld.moves - 1 ∧ w'.totalScore = seaWorld.totalScore - 100 ∧
      (seaWorld.moves ≠ 1 →
        w'.g.Turn = (NextTurn seaWorld).g.Turn ∧ w'.endGames = seaWorld.endGames) ∧
      (seaWorld.moves = 1 → w'.g.Turn = (NextTurn (EndGame seaWorld)).g.Turn ∧
        w'.endGames = seaWorld.endGames + 1) :=
  makeGuess_repeated asciiCase seaWorld 1 "" (by decide) (by decide)
    (Or.inl (by decide))

/-! ### No out-of-range write -/

theorem makeGuess_total_of_maskInv (cm : CaseMap) (w : World) (hinv : MaskInv w)
    (playerID : Int) (character : String) :
    ∃ w' ok, MakeGuess cm w playerID character = some (w', ok) := by
  by_cases hturn : playerID = w.g.Turn
  · have hlen : w.g.Word.data.length ≤ w.g.RevealedWord.data.length := by
      rcases Nat.eq_zero_or_pos w.endGames with h0 | hp
      · exact (hinv.1 h0).ge
      · rw [hinv.2 hp]; simp
    cases hg : alreadyRevealed cm w character with
    | true =>
      exact ⟨_, _, makeGuess_of_loop cm w playerID character hturn _ _ _
        (guessLoop_nothing cm w character (Or.inl hg))⟩
    | false =>
      obtain ⟨rev', hloop, -, -⟩ := guessLoop_fresh cm w character hg hlen
      exact ⟨_, _, makeGuess_of_loop cm w playerID character hturn _ _ _ hloop⟩
  · exact ⟨w, false, makeGuess_not_turn_aux cm w playerID character hturn⟩

theorem run_total_of_maskInv (cm : CaseMap) :
    ∀ (ops : List Op) (w0 : World), MaskInv w0 →
      ∃ w, run cm w0 ops = some w ∧ MaskInv w := by
  intro ops
  induction ops with
  | nil => intro w0 h0; exact ⟨w0, rfl, h0⟩
  | cons op rest ih =>
    intro w0 h0
    have hstep : ∃ w1, step cm w0 op = some w1 := by
      cases op with
      | addPlayer conn => exact ⟨_, rfl⟩
      | removePlayer playerID => exact ⟨_, rfl⟩
      | nextTurn => exact ⟨_, rfl⟩
      | endGame => exact ⟨_, rfl⟩
      | makeGuess playerID character =>
        obtain ⟨w', ok, hm⟩ := makeGuess_total_of_maskInv cm w0 h0 playerID character
        exact ⟨w', by simp only [step, hm, Option.map_some']⟩
    obtain ⟨w1, hs⟩ := hstep
    obtain ⟨w, hrun, hinv⟩ := ih w1 (step_maskInv cm w0 op w1 h0 hs)
    exact ⟨w, by simp only [run, hs, hrun], hinv⟩

/-- C20: from a new game, every sequence of `AddPlayer`, `RemovePlayer` and
`MakeGuess` calls (and `NextTurn`, `EndGame`) runs without an index-out-of-range
failure, and in the state it reaches `MakeGuess` returns normally for every
player identifier and every character string. -/
theorem makeGuess_in_bounds (cm : CaseMap) (wordList : List Word) (wordIndex : Nat)
    (w0 : World) (h : NewGame wordList wordIndex = some w0) (ops : List Op) :
    ∃ w, run cm w0 ops = some w ∧
      ∀ (playerID : Int) (character : String),
        ∃ w' ok, MakeGuess cm w playerID character = some (w', ok) := by
  have h0 : MaskInv w0 := by
    obtain ⟨word, hw, hr, -, -, -, he, -, -⟩ := newGame_inv wordList wordIndex w0 h
    refine ⟨fun _ => ?_, fun hp => by omega⟩
    rw [hr, hw, initialMask_length]
  obtain ⟨w, hrun, hinv⟩ := run_total_of_maskInv cm ops w0 h0
  exact ⟨w, hrun, makeGuess_total_of_maskInv cm w hinv⟩

/-- Witness for C20: the "A" session; the second call runs `EndGame`. -/
theorem makeGuess_in_bounds_witness :
    NewGame singleA 0 = some freshA ∧
      ∃ w, run asciiCase freshA [Op.addPlayer 10, Op.makeGuess 1 "a"] = some w ∧
        ∀ (playerID : Int) (character : String),
          ∃ w' ok, MakeGuess asciiCase w playerID character = some (w', ok) :=
  ⟨by rfl,
   makeGuess_in_bounds asciiCase singleA 0 freshA (by rfl)
    [Op.addPlayer 10, Op.makeGuess 1 "a"]⟩

end WonderWords
